import Mathlib

set_option maxHeartbeats 1000000

/-!
Verification of the expression-tree core of `rop_compiler/ast.py`.

The embedding mirrors the source file: the operand classes (`Const`,
`Register`, `Memory`) and the `BinaryOperand` subclasses (`Add`, `Sub`,
`Mult`, `BitwiseAnd`, `BitwiseOr`, `BitwiseXor`, `Equal`, `Store`) become one
inductive type `Op`; `compute` is concrete evaluation against a register map
and a memory map (Python `KeyError` and `AttributeError` become `none`);
`to_z3` is translation to a model of z3 Python values (`Z3V`), where a plain
Python `int` or `bool` and z3 expression nodes are distinguished exactly as
the z3 Python API distinguishes them; `is_same_memory` is the syntactic
aliasing heuristic, reproduced faithfully including the `con1`/`const1`
variable slip of the source.
-/

namespace RopAst

/-- The AST node type of `ast.py`.  `Register.convert_name` always returns
`(name, 8, -1)`, so a register's `size` and `start` fields are the constants
`registerSize` and `registerStart` and a register is determined by its name
and its handle. -/
inductive Op
  | const (value : Int)
  | register (name : String) (handle : Nat)
  | memory (address : Op) (size : Nat)
  | add (l r : Op)
  | sub (l r : Op)
  | mult (l r : Op)
  | bitwiseAnd (l r : Op)
  | bitwiseOr (l r : Op)
  | bitwiseXor (l r : Op)
  | equal (l r : Op)
  | store (l r : Op)
  deriving DecidableEq

/-- `Register.convert_name` returns size 8 for every name. -/
def registerSize : Nat := 8

/-- `Register.convert_name` returns start -1 for every name. -/
def registerStart : Int := -1

/-- The Python class of a node, used for `type(x) == type(y)` and
`issubclass` tests in `is_same_memory`. -/
inductive PyClass
  | constC
  | registerC
  | memoryC
  | addC
  | subC
  | multC
  | bitwiseAndC
  | bitwiseOrC
  | bitwiseXorC
  | equalC
  | storeC
  deriving DecidableEq

def pyClass : Op → PyClass
  | .const _ => .constC
  | .register _ _ => .registerC
  | .memory _ _ => .memoryC
  | .add _ _ => .addC
  | .sub _ _ => .subC
  | .mult _ _ => .multC
  | .bitwiseAnd _ _ => .bitwiseAndC
  | .bitwiseOr _ _ => .bitwiseOrC
  | .bitwiseXor _ _ => .bitwiseXorC
  | .equal _ _ => .equalC
  | .store _ _ => .storeC

/-- `issubclass(c, BinaryOperand)`: true exactly for the eight operation
classes. -/
def isBinClass : PyClass → Bool
  | .constC => false
  | .registerC => false
  | .memoryC => false
  | _ => true

def isBinaryOperand (o : Op) : Bool := isBinClass (pyClass o)

/-- `self.operands` of a `BinaryOperand`: the list `[left, right]`.  The
operand classes have no `operands` attribute; `is_same_memory` only reads it
after the `issubclass` check, so the default `[]` is unreachable there. -/
def operandsOf : Op → List Op
  | .add l r => [l, r]
  | .sub l r => [l, r]
  | .mult l r => [l, r]
  | .bitwiseAnd l r => [l, r]
  | .bitwiseOr l r => [l, r]
  | .bitwiseXor l r => [l, r]
  | .equal l r => [l, r]
  | .store l r => [l, r]
  | _ => []

/- ## Handle allocation (`Register.MAX_HANDLE`, `Register.new_handle`,
`Register.__init__`).  The class-level counter is threaded explicitly. -/

/-- `Register.new_handle`: returns the current counter and increments it. -/
def new_handle (maxHandle : Nat) : Nat × Nat := (maxHandle, maxHandle + 1)

/-- `Register.__init__(name, handle=None)`: an explicit handle is stored as
given and the counter is untouched; `handle=None` draws a fresh handle from
the counter. -/
def mkRegister (name : String) (handle : Option Nat) (maxHandle : Nat) : Op × Nat :=
  match handle with
  | some h => (Op.register name h, maxHandle)
  | none => (Op.register name (new_handle maxHandle).1, (new_handle maxHandle).2)

def handleOf : Op → Nat
  | .register _ h => h
  | _ => 0

/-- Run a sequence of `Register` constructions (`none` requests a fresh
handle, `some h` supplies an explicit one) against the counter, recording
each request with the handle the register received and the final counter. -/
def runConstructions (m : Nat) : List (Option Nat) → List (Option Nat × Nat) × Nat
  | [] => ([], m)
  | req :: rest =>
    let rm := mkRegister "reg" req m
    let tailRes := runConstructions rm.2 rest
    ((req, handleOf rm.1) :: tailRes.1, tailRes.2)

/-- The handles handed out to the fresh-handle requests of a construction
sequence, in order. -/
def freshOf (m : Nat) (reqs : List (Option Nat)) : List Nat :=
  ((runConstructions m reqs).1.filter fun p => p.1.isNone).map fun p => p.2

/- ## Concrete evaluation (`compute`). -/

/-- A Python number as produced by `compute`: the operand classes produce
ints, `Equal` produces a bool. -/
inductive PyNum
  | int (v : Int)
  | bool (b : Bool)
  deriving DecidableEq

/-- The numeric value of a Python int or bool (`True == 1`, `False == 0`). -/
def PyNum.toInt : PyNum → Int
  | .int v => v
  | .bool b => if b then 1 else 0

/-- Python bitwise AND on arbitrary-precision two's-complement integers
(`-(m+1)` is the complement of `m`), written with kernel-computable `Nat`
primitives: the bits of `m` not in `n` are `m - (m &&& n)`. -/
def pyAnd : Int → Int → Int
  | Int.ofNat m, Int.ofNat n => Int.ofNat (m &&& n)
  | Int.ofNat m, Int.negSucc n => Int.ofNat (m - (m &&& n))
  | Int.negSucc m, Int.ofNat n => Int.ofNat (n - (n &&& m))
  | Int.negSucc m, Int.negSucc n => Int.negSucc (m ||| n)

/-- Python bitwise OR on two's-complement integers. -/
def pyOr : Int → Int → Int
  | Int.ofNat m, Int.ofNat n => Int.ofNat (m ||| n)
  | Int.ofNat m, Int.negSucc n => Int.negSucc (n - (n &&& m))
  | Int.negSucc m, Int.ofNat n => Int.negSucc (m - (m &&& n))
  | Int.negSucc m, Int.negSucc n => Int.negSucc (m &&& n)

/-- Python bitwise XOR on two's-complement integers. -/
def pyXor : Int → Int → Int
  | Int.ofNat m, Int.ofNat n => Int.ofNat (m ^^^ n)
  | Int.ofNat m, Int.negSucc n => Int.negSucc (m ^^^ n)
  | Int.negSucc m, Int.ofNat n => Int.negSucc (m ^^^ n)
  | Int.negSucc m, Int.negSucc n => Int.ofNat (m ^^^ n)

example : pyAnd (-5) 3 = 3 := by decide
example : pyAnd 12 10 = 8 := by decide
example : pyAnd (-12) (-10) = -12 := by decide
example : pyAnd 7 (-3) = 5 := by decide
example : pyOr (-12) (-10) = -10 := by decide
example : pyOr 5 2 = 7 := by decide
example : pyXor 12 (-10) = -6 := by decide
example : pyXor 5 3 = 6 := by decide

/-- The six value operations (`Add` .. `BitwiseXor`); `Equal` and `Store` are
handled separately, matching the source where `Equal` has a boolean lambda and
`Store` has none. -/
inductive BK
  | add
  | sub
  | mult
  | band
  | bor
  | bxor
  deriving DecidableEq

def intOp : BK → Int → Int → Int
  | .add, x, y => x + y
  | .sub, x, y => x - y
  | .mult, x, y => x * y
  | .band, x, y => pyAnd x y
  | .bor, x, y => pyOr x y
  | .bxor, x, y => pyXor x y

/-- The operation lambda applied to two Python values.  Python returns a bool
for `&`, `|`, `^` of two bools and an int in every other combination. -/
def pyOp (k : BK) (x y : PyNum) : PyNum :=
  match x, y with
  | PyNum.bool a, PyNum.bool b =>
    match k with
    | .band => PyNum.bool (a && b)
    | .bor => PyNum.bool (a || b)
    | .bxor => PyNum.bool (Bool.xor a b)
    | _ => PyNum.int (intOp k (PyNum.toInt (PyNum.bool a)) (PyNum.toInt (PyNum.bool b)))
  | _, _ => PyNum.int (intOp k x.toInt y.toInt)

/-- `compute(input_registers, memory)` for every node type.  A Python
`KeyError` (register or address absent from the supplied map) and the
`AttributeError` raised by `Store.compute` (the class has no `operand`
lambda) are modeled as `none`. -/
def compute (o : Op) (regs : String → Option Int) (mem : Int → Option Int) : Option PyNum :=
  match o with
  | .const v => some (.int v)
  | .register n _ => (regs n).map PyNum.int
  | .memory a _ => (compute a regs mem).bind fun av => (mem av.toInt).map PyNum.int
  | .add l r =>
    (compute l regs mem).bind fun x => (compute r regs mem).map fun y => pyOp .add x y
  | .sub l r =>
    (compute l regs mem).bind fun x => (compute r regs mem).map fun y => pyOp .sub x y
  | .mult l r =>
    (compute l regs mem).bind fun x => (compute r regs mem).map fun y => pyOp .mult x y
  | .bitwiseAnd l r =>
    (compute l regs mem).bind fun x => (compute r regs mem).map fun y => pyOp .band x y
  | .bitwiseOr l r =>
    (compute l regs mem).bind fun x => (compute r regs mem).map fun y => pyOp .bor x y
  | .bitwiseXor l r =>
    (compute l regs mem).bind fun x => (compute r regs mem).map fun y => pyOp .bxor x y
  | .equal l r =>
    (compute l regs mem).bind fun x =>
      (compute r regs mem).map fun y => PyNum.bool (decide (x.toInt = y.toInt))
  | .store _ _ => none

def emptyRegs : String → Option Int := fun _ => none

def emptyMem : Int → Option Int := fun _ => none

def singleReg (name : String) (v : Int) : String → Option Int :=
  fun n => if n = name then some v else none

def singleMem (a v : Int) : Int → Option Int :=
  fun x => if x = a then some v else none

/- ## Translation to solver formulas (`to_z3`). -/

/-- The sort of a value flowing through `to_z3`: a plain Python int, a plain
Python bool, a z3 bit-vector expression of width `w`, or a z3 boolean
expression. -/
inductive ZK
  | int
  | bool
  | bv (w : Nat)
  | boolE
  deriving DecidableEq

/-- A value produced while translating a tree with the z3 Python API:
`Const.to_z3` returns the bare Python int (`pyInt`); `Register.to_z3`
returns `z3.BitVec(name, w)` (`var`); z3 itself coerces a Python int that
meets a bit-vector to a literal `z3.BitVecVal(v, w)` (`bvVal`) and a Python
bool that meets a z3 boolean to `z3.BoolVal(b)` (`boolVal`); `Memory.to_z3`
builds an array read (`select`); the operation lambdas build operator
applications (`app`) and equations (`eqE`). -/
inductive Z3V
  | pyInt (v : Int)
  | pyBool (b : Bool)
  | var (name : String) (w : Nat)
  | bvVal (v : Int) (w : Nat)
  | boolVal (b : Bool)
  | select (arr : String) (domw rngw : Nat) (idx : Z3V)
  | app (k : BK) (l r : Z3V)
  | eqE (l r : Z3V)
  deriving DecidableEq

def kindOf : Z3V → ZK
  | .pyInt _ => .int
  | .pyBool _ => .bool
  | .var _ w => .bv w
  | .bvVal _ w => .bv w
  | .boolVal _ => .boolE
  | .select _ _ rngw _ => .bv rngw
  | .app _ l _ => kindOf l
  | .eqE _ _ => .boolE

/-- The Python number carried by a value, when it is a plain int or bool. -/
def toPyNum : Z3V → Option PyNum
  | .pyInt v => some (.int v)
  | .pyBool b => some (.bool b)
  | _ => none

def ofPy : PyNum → Z3V
  | .int v => .pyInt v
  | .bool b => .pyBool b

/-- z3's coercion of a Python int to a bit-vector literal of width `w`
(the stored value is reduced modulo `2 ^ w`, as z3 does). -/
def coerceTo (w : Nat) : Z3V → Z3V
  | .pyInt v => .bvVal (v % ((2 : Int) ^ w)) w
  | z => z

/-- z3's coercion of a Python bool to a `z3.BoolVal`. -/
def toZ3Bool : Z3V → Z3V
  | .pyBool b => .boolVal b
  | z => z

/-- The lambda of an arithmetic/bitwise node applied to two translated
children.  Two plain Python values combine in Python itself; a z3 bit-vector
combines with a same-width bit-vector or with a Python int (coerced); every
other combination raises in z3 (sort mismatch) or in Python (no operator),
modeled as `none`. -/
def applyArith (k : BK) (x y : Z3V) : Option Z3V :=
  match toPyNum x, toPyNum y with
  | some a, some b => some (ofPy (pyOp k a b))
  | _, _ =>
    match kindOf x, kindOf y with
    | ZK.bv w, ZK.bv w2 => if w = w2 then some (.app k x y) else none
    | ZK.bv w, ZK.int => some (.app k x (coerceTo w y))
    | ZK.int, ZK.bv w => some (.app k (coerceTo w x) y)
    | _, _ => none

/-- The `Equal` lambda `x == y` applied to two translated children.  Two
plain Python values compare numerically in Python; z3 builds an equation
between compatible sorts, coercing a Python int or bool; incompatible sorts
raise, modeled as `none`. -/
def applyEq (x y : Z3V) : Option Z3V :=
  match toPyNum x, toPyNum y with
  | some a, some b => some (.pyBool (decide (a.toInt = b.toInt)))
  | _, _ =>
    match kindOf x, kindOf y with
    | ZK.bv w, ZK.bv w2 => if w = w2 then some (.eqE x y) else none
    | ZK.bv w, ZK.int => some (.eqE x (coerceTo w y))
    | ZK.int, ZK.bv w => some (.eqE (coerceTo w x) y)
    | ZK.boolE, ZK.boolE => some (.eqE x y)
    | ZK.boolE, ZK.bool => some (.eqE x (toZ3Bool y))
    | ZK.bool, ZK.boolE => some (.eqE (toZ3Bool x) y)
    | _, _ => none

/-- `Memory.to_z3`: a read of the single flat array
`z3.Array("Memory", BitVecSort(64), BitVecSort(64))` at the translated
address.  The index must be a Python int (coerced) or a 64-bit vector. -/
def selectMemory (a : Z3V) : Option Z3V :=
  match kindOf a with
  | ZK.int => some (.select "Memory" 64 64 (coerceTo 64 a))
  | ZK.bv w => if w = 64 then some (.select "Memory" 64 64 a) else none
  | _ => none

/-- `to_z3` for every node type.  `Const.to_z3` returns `self.value`, the
bare Python int.  `Register.to_z3` returns `z3.BitVec(str(self), size * 8)`
and `__str__` returns only the name, so the handle does not reach the
variable.  `Store` defines no `operand` lambda, so `BinaryOperand.to_z3`
raises `AttributeError` on it, modeled as `none`. -/
def to_z3 : Op → Option Z3V
  | .const v => some (.pyInt v)
  | .register n _ => some (.var n (registerSize * 8))
  | .memory a _ => (to_z3 a).bind selectMemory
  | .add l r => (to_z3 l).bind fun x => (to_z3 r).bind fun y => applyArith .add x y
  | .sub l r => (to_z3 l).bind fun x => (to_z3 r).bind fun y => applyArith .sub x y
  | .mult l r => (to_z3 l).bind fun x => (to_z3 r).bind fun y => applyArith .mult x y
  | .bitwiseAnd l r => (to_z3 l).bind fun x => (to_z3 r).bind fun y => applyArith .band x y
  | .bitwiseOr l r => (to_z3 l).bind fun x => (to_z3 r).bind fun y => applyArith .bor x y
  | .bitwiseXor l r => (to_z3 l).bind fun x => (to_z3 r).bind fun y => applyArith .bxor x y
  | .equal l r => (to_z3 l).bind fun x => (to_z3 r).bind fun y => applyEq x y
  | .store _ _ => none

/-- Spec-side predicate: is this z3 value a width-annotated bit-vector
literal (`z3.BitVecVal`)? -/
def isBitVecLiteral : Z3V → Bool
  | .bvVal _ _ => true
  | _ => false

/- ## The syntactic aliasing heuristic (`Memory.is_same_memory`). -/

/-- The single scan over a `BinaryOperand`'s operand list in
`is_same_memory`: it keeps the last `Register` seen in the first slot and the
last `Const` seen in the second slot.  In the source the second slot is the
variable `con1` (resp. `con2`). -/
def scanRegCon (ops : List Op) : Option Op × Option Op :=
  ops.foldl
    (fun acc o =>
      match o with
      | .register _ _ => (some o, acc.2)
      | .const _ => (acc.1, some o)
      | _ => acc)
    (none, none)

/-- `reg1.name == reg2.name` when both slots hold registers. -/
def optRegNameEq : Option Op → Option Op → Bool
  | some (.register n1 _), some (.register n2 _) => decide (n1 = n2)
  | _, _ => false

/-- `const1.value == const2.value` when both slots hold constants. -/
def optConstValEq : Option Op → Option Op → Bool
  | some (.const v1), some (.const v2) => decide (v1 = v2)
  | _, _ => false

/-- The tail of `is_same_memory` for two `BinaryOperand` addresses, given the
two operand scans.  The source initializes `reg1 = const1 = reg2 = const2 =
None` but the scan loops assign `con1` and `con2`, so `const1` and `const2`
keep the value `None`: the `type(const1) != type(const2)` guard never fires
and the final conjunct short-circuits on `None in [const1, const2]`. -/
def binScanCore (s1 s2 : Option Op × Option Op) : Bool :=
  let reg1 := s1.1
  let reg2 := s2.1
  let const1 : Option Op := none
  let const2 : Option Op := none
  if reg1.isNone || reg2.isNone || decide (const1.isSome ≠ const2.isSome) then false
  else optRegNameEq reg1 reg2 && (const1.isNone || const2.isNone || optConstValEq const1 const2)

def binScan (a1 a2 : Op) : Bool :=
  binScanCore (scanRegCon (operandsOf a1)) (scanRegCon (operandsOf a2))

/-- `address1.value == address2.value` for two `Const` addresses, or
`address1.name == address2.name` for two `Register` addresses (the disjunction
on lines 87-88 of the source, evaluated after the type-equality guard). -/
def sameConstOrReg : Op → Op → Bool
  | .const v1, .const v2 => decide (v1 = v2)
  | .register n1 _, .register n2 _ => decide (n1 = n2)
  | _, _ => false

/-- The body of `is_same_memory` on the two extracted addresses: a
type-equality guard, the `Const`/`Register` fast paths, the
`issubclass(..., BinaryOperand)` guard, then the operand scans. -/
def sameAddress (a1 a2 : Op) : Bool :=
  if pyClass a1 ≠ pyClass a2 then false
  else if sameConstOrReg a1 a2 then true
  else if isBinaryOperand a1 then binScan a1 a2
  else false

/-- `Memory.is_same_memory(other)`: defined on two `Memory` operands; on
anything else the attribute accesses `self.address` / `other.address` raise,
modeled as `none`. -/
def is_same_memory : Op → Op → Option Bool
  | .memory a1 _, .memory a2 _ => some (sameAddress a1 a2)
  | _, _ => none

/- ## Tree classes used by the totality claim. -/

/-- Trees built from the six value operations over the three operand types,
with memory addresses drawn from the same class: every node of such a tree
translates to a Python int or a 64-bit vector. -/
def valueTree : Op → Bool
  | .const _ => true
  | .register _ _ => true
  | .memory a _ => valueTree a
  | .add l r => valueTree l && valueTree r
  | .sub l r => valueTree l && valueTree r
  | .mult l r => valueTree l && valueTree r
  | .bitwiseAnd l r => valueTree l && valueTree r
  | .bitwiseOr l r => valueTree l && valueTree r
  | .bitwiseXor l r => valueTree l && valueTree r
  | .equal _ _ => false
  | .store _ _ => false

/-- A value tree, optionally topped by one `Equal` constraint (the way the
source builds solver goals). -/
def topTree : Op → Bool
  | .equal l r => valueTree l && valueTree r
  | o => valueTree o

/- ## Symmetry of the aliasing heuristic. -/

theorem decide_comm {α : Type} [DecidableEq α] (a b : α) :
    decide (a = b) = decide (b = a) :=
  decide_eq_decide.mpr eq_comm

theorem optRegNameEq_comm (x y : Option Op) : optRegNameEq x y = optRegNameEq y x := by
  rcases x with _ | x1 <;> rcases y with _ | y1
  · rfl
  · cases y1 <;> rfl
  · cases x1 <;> rfl
  · cases x1 <;> cases y1 <;> first | rfl | exact decide_comm _ _

theorem binScanCore_comm (s1 s2 : Option Op × Option Op) :
    binScanCore s1 s2 = binScanCore s2 s1 := by
  rcases s1 with ⟨r1, c1⟩
  rcases s2 with ⟨r2, c2⟩
  cases r1 <;> cases r2 <;> simp [binScanCore, optRegNameEq_comm]

theorem binScan_comm (a1 a2 : Op) : binScan a1 a2 = binScan a2 a1 :=
  binScanCore_comm _ _

theorem sameConstOrReg_comm (a b : Op) : sameConstOrReg a b = sameConstOrReg b a := by
  cases a <;> cases b <;> first | rfl | exact decide_comm _ _

theorem sameAddress_comm (a b : Op) : sameAddress a b = sameAddress b a := by
  by_cases h : pyClass a = pyClass b
  · have hb : isBinaryOperand a = isBinaryOperand b := by
      unfold isBinaryOperand
      rw [h]
    simp only [sameAddress, h]
    rw [sameConstOrReg_comm a b, binScan_comm a b, hb]
  · have h2 : pyClass b ≠ pyClass a := fun hh => h hh.symm
    simp [sameAddress, h, h2]

/- ## Totality of `to_z3` on the supported tree class. -/

/-- The invariant carried by the translation of a value tree: the result is a
bare Python int or a 64-bit z3 bit-vector. -/
def goodVal (z : Z3V) : Prop := (∃ v, z = Z3V.pyInt v) ∨ kindOf z = ZK.bv 64

theorem toPyNum_eq_none_of_bv (z : Z3V) (w : Nat) (h : kindOf z = ZK.bv w) :
    toPyNum z = none := by
  cases z <;> simp [toPyNum, kindOf] at h ⊢

theorem applyArith_py_bv (k : BK) (v : Int) (y : Z3V) (hy : kindOf y = ZK.bv 64) :
    applyArith k (Z3V.pyInt v) y = some (Z3V.app k (coerceTo 64 (Z3V.pyInt v)) y) := by
  cases y with
  | pyInt u => simp [kindOf] at hy
  | pyBool b => simp [kindOf] at hy
  | var n w => simp only [kindOf, ZK.bv.injEq] at hy; subst hy; rfl
  | bvVal u w => simp only [kindOf, ZK.bv.injEq] at hy; subst hy; rfl
  | boolVal b => simp [kindOf] at hy
  | select arr domw rngw idx => simp only [kindOf, ZK.bv.injEq] at hy; subst hy; rfl
  | app k2 l r =>
    have h2 : kindOf l = ZK.bv 64 := hy
    simp [applyArith, toPyNum, kindOf, h2]
  | eqE l r => simp [kindOf] at hy

theorem applyArith_bv_py (k : BK) (x : Z3V) (u : Int) (hx : kindOf x = ZK.bv 64) :
    applyArith k x (Z3V.pyInt u) = some (Z3V.app k x (coerceTo 64 (Z3V.pyInt u))) := by
  cases x with
  | pyInt v => simp [kindOf] at hx
  | pyBool b => simp [kindOf] at hx
  | var n w => simp only [kindOf, ZK.bv.injEq] at hx; subst hx; rfl
  | bvVal v w => simp only [kindOf, ZK.bv.injEq] at hx; subst hx; rfl
  | boolVal b => simp [kindOf] at hx
  | select arr domw rngw idx => simp only [kindOf, ZK.bv.injEq] at hx; subst hx; rfl
  | app k2 l r =>
    have h2 : kindOf l = ZK.bv 64 := hx
    simp [applyArith, toPyNum, kindOf, h2]
  | eqE l r => simp [kindOf] at hx

theorem applyArith_bv_bv (k : BK) (x y : Z3V) (hx : kindOf x = ZK.bv 64)
    (hy : kindOf y = ZK.bv 64) : applyArith k x y = some (Z3V.app k x y) := by
  have hnx := toPyNum_eq_none_of_bv x 64 hx
  have hny := toPyNum_eq_none_of_bv y 64 hy
  unfold applyArith
  rw [hnx, hny, hx, hy]
  rfl

theorem applyArith_total (k : BK) (x y : Z3V) (hx : goodVal x) (hy : goodVal y) :
    ∃ z, applyArith k x y = some z ∧ goodVal z := by
  rcases hx with ⟨v, rfl⟩ | hx
  · rcases hy with ⟨u, rfl⟩ | hy
    · exact ⟨_, rfl, Or.inl ⟨intOp k v u, rfl⟩⟩
    · exact ⟨_, applyArith_py_bv k v y hy, Or.inr rfl⟩
  · rcases hy with ⟨u, rfl⟩ | hy
    · exact ⟨_, applyArith_bv_py k x u hx, Or.inr hx⟩
    · exact ⟨_, applyArith_bv_bv k x y hx hy, Or.inr hx⟩

theorem applyEq_py_bv (v : Int) (y : Z3V) (hy : kindOf y = ZK.bv 64) :
    applyEq (Z3V.pyInt v) y = some (Z3V.eqE (coerceTo 64 (Z3V.pyInt v)) y) := by
  cases y with
  | pyInt u => simp [kindOf] at hy
  | pyBool b => simp [kindOf] at hy
  | var n w => simp only [kindOf, ZK.bv.injEq] at hy; subst hy; rfl
  | bvVal u w => simp only [kindOf, ZK.bv.injEq] at hy; subst hy; rfl
  | boolVal b => simp [kindOf] at hy
  | select arr domw rngw idx => simp only [kindOf, ZK.bv.injEq] at hy; subst hy; rfl
  | app k2 l r =>
    have h2 : kindOf l = ZK.bv 64 := hy
    simp [applyEq, toPyNum, kindOf, h2]
  | eqE l r => simp [kindOf] at hy

theorem applyEq_bv_py (x : Z3V) (u : Int) (hx : kindOf x = ZK.bv 64) :
    applyEq x (Z3V.pyInt u) = some (Z3V.eqE x (coerceTo 64 (Z3V.pyInt u))) := by
  cases x with
  | pyInt v => simp [kindOf] at hx
  | pyBool b => simp [kindOf] at hx
  | var n w => simp only [kindOf, ZK.bv.injEq] at hx; subst hx; rfl
  | bvVal v w => simp only [kindOf, ZK.bv.injEq] at hx; subst hx; rfl
  | boolVal b => simp [kindOf] at hx
  | select arr domw rngw idx => simp only [kindOf, ZK.bv.injEq] at hx; subst hx; rfl
  | app k2 l r =>
    have h2 : kindOf l = ZK.bv 64 := hx
    simp [applyEq, toPyNum, kindOf, h2]
  | eqE l r => simp [kindOf] at hx

theorem applyEq_bv_bv (x y : Z3V) (hx : kindOf x = ZK.bv 64) (hy : kindOf y = ZK.bv 64) :
    applyEq x y = some (Z3V.eqE x y) := by
  have hnx := toPyNum_eq_none_of_bv x 64 hx
  have hny := toPyNum_eq_none_of_bv y 64 hy
  unfold applyEq
  rw [hnx, hny, hx, hy]
  rfl

theorem applyEq_total (x y : Z3V) (hx : goodVal x) (hy : goodVal y) :
    ∃ z, applyEq x y = some z := by
  rcases hx with ⟨v, rfl⟩ | hx
  · rcases hy with ⟨u, rfl⟩ | hy
    · exact ⟨_, rfl⟩
    · exact ⟨_, applyEq_py_bv v y hy⟩
  · rcases hy with ⟨u, rfl⟩ | hy
    · exact ⟨_, applyEq_bv_py x u hx⟩
    · exact ⟨_, applyEq_bv_bv x y hx hy⟩

theorem selectMemory_total (a : Z3V) (h : goodVal a) :
    ∃ z, selectMemory a = some z ∧ goodVal z := by
  rcases h with ⟨v, rfl⟩ | h
  · exact ⟨_, rfl, Or.inr rfl⟩
  · refine ⟨Z3V.select "Memory" 64 64 a, ?_, Or.inr rfl⟩
    simp [selectMemory, h]

theorem valueTree_to_z3 : ∀ t : Op, valueTree t = true → ∃ z, to_z3 t = some z ∧ goodVal z := by
  intro t
  induction t with
  | const v => exact fun _ => ⟨_, rfl, Or.inl ⟨v, rfl⟩⟩
  | register n h => exact fun _ => ⟨_, rfl, Or.inr rfl⟩
  | memory a sz ih =>
    intro hv
    obtain ⟨z, hz, hg⟩ := ih (by simpa [valueTree] using hv)
    obtain ⟨z2, hz2, hk⟩ := selectMemory_total z hg
    exact ⟨z2, by simp [to_z3, hz, hz2], hk⟩
  | add l r ihl ihr =>
    intro hv
    rw [valueTree, Bool.and_eq_true] at hv
    obtain ⟨zl, hl, gl⟩ := ihl hv.1
    obtain ⟨zr, hr, gr⟩ := ihr hv.2
    obtain ⟨z, hz, gz⟩ := applyArith_total .add zl zr gl gr
    exact ⟨z, by simp [to_z3, hl, hr, hz], gz⟩
  | sub l r ihl ihr =>
    intro hv
    rw [valueTree, Bool.and_eq_true] at hv
    obtain ⟨zl, hl, gl⟩ := ihl hv.1
    obtain ⟨zr, hr, gr⟩ := ihr hv.2
    obtain ⟨z, hz, gz⟩ := applyArith_total .sub zl zr gl gr
    exact ⟨z, by simp [to_z3, hl, hr, hz], gz⟩
  | mult l r ihl ihr =>
    intro hv
    rw [valueTree, Bool.and_eq_true] at hv
    obtain ⟨zl, hl, gl⟩ := ihl hv.1
    obtain ⟨zr, hr, gr⟩ := ihr hv.2
    obtain ⟨z, hz, gz⟩ := applyArith_total .mult zl zr gl gr
    exact ⟨z, by simp [to_z3, hl, hr, hz], gz⟩
  | bitwiseAnd l r ihl ihr =>
    intro hv
    rw [valueTree, Bool.and_eq_true] at hv
    obtain ⟨zl, hl, gl⟩ := ihl hv.1
    obtain ⟨zr, hr, gr⟩ := ihr hv.2
    obtain ⟨z, hz, gz⟩ := applyArith_total .band zl zr gl gr
    exact ⟨z, by simp [to_z3, hl, hr, hz], gz⟩
  | bitwiseOr l r ihl ihr =>
    intro hv
    rw [valueTree, Bool.and_eq_true] at hv
    obtain ⟨zl, hl, gl⟩ := ihl hv.1
    obtain ⟨zr, hr, gr⟩ := ihr hv.2
    obtain ⟨z, hz, gz⟩ := applyArith_total .bor zl zr gl gr
    exact ⟨z, by simp [to_z3, hl, hr, hz], gz⟩
  | bitwiseXor l r ihl ihr =>
    intro hv
    rw [valueTree, Bool.and_eq_true] at hv
    obtain ⟨zl, hl, gl⟩ := ihl hv.1
    obtain ⟨zr, hr, gr⟩ := ihr hv.2
    obtain ⟨z, hz, gz⟩ := applyArith_total .bxor zl zr gl gr
    exact ⟨z, by simp [to_z3, hl, hr, hz], gz⟩
  | equal l r ihl ihr => intro hv; simp [valueTree] at hv
  | store l r ihl ihr => intro hv; simp [valueTree] at hv

theorem isSome_of_valueTree (t : Op) (h : valueTree t = true) : (to_z3 t).isSome = true := by
  obtain ⟨z, hz, _⟩ := valueTree_to_z3 t h
  simp [hz]

/- ## Fresh-handle lemmas. -/

theorem freshOf_nil (m : Nat) : freshOf m [] = [] := rfl

theorem freshOf_cons_some (m h : Nat) (rest : List (Option Nat)) :
    freshOf m (some h :: rest) = freshOf m rest := by
  simp [freshOf, runConstructions, mkRegister, handleOf, List.filter_cons]

theorem freshOf_cons_none (m : Nat) (rest : List (Option Nat)) :
    freshOf m (none :: rest) = m :: freshOf (m + 1) rest := by
  simp [freshOf, runConstructions, mkRegister, new_handle, handleOf, List.filter_cons]

theorem freshOf_lower :
    ∀ (reqs : List (Option Nat)) (m x : Nat), x ∈ freshOf m reqs → m ≤ x := by
  intro reqs
  induction reqs with
  | nil => intro m x hx; rw [freshOf_nil] at hx; cases hx
  | cons req rest ih =>
    intro m x hx
    cases req with
    | some h => rw [freshOf_cons_some] at hx; exact ih m x hx
    | none =>
      rw [freshOf_cons_none] at hx
      rcases List.mem_cons.mp hx with rfl | hx
      · exact Nat.le_refl x
      · exact Nat.le_trans (Nat.le_succ m) (ih (m + 1) x hx)

theorem freshOf_pairwise :
    ∀ (reqs : List (Option Nat)) (m : Nat), (freshOf m reqs).Pairwise (fun a b => a < b) := by
  intro reqs
  induction reqs with
  | nil => intro m; rw [freshOf_nil]; exact List.Pairwise.nil
  | cons req rest ih =>
    intro m
    cases req with
    | some h => rw [freshOf_cons_some]; exact ih m
    | none =>
      rw [freshOf_cons_none]
      refine List.Pairwise.cons ?_ (ih (m + 1))
      intro b hb
      exact Nat.lt_of_lt_of_le (Nat.lt_succ_self m) (freshOf_lower rest (m + 1) b hb)

/- ## The claims. -/

/-- Claim C1 (code behavior at the failing input).  Two `Register`
instances constructed with `handle=None` and the same name "rax" receive the
distinct handles 0 and 1, yet `to_z3` maps both to the one solver variable
`z3.BitVec("rax", 64)`: the variable name is `str(self)`, which is only the
register name, so the handle never reaches the solver variable — against the
claim (and the class docstring), registers with different handles but equal
names translate to the same solver variable. -/
theorem c1_fresh_handles_share_solver_variable :
    handleOf (mkRegister "rax" none 0).1 = 0 ∧
    handleOf (mkRegister "rax" none 1).1 = 1 ∧
    to_z3 (mkRegister "rax" none 0).1 = to_z3 (mkRegister "rax" none 1).1 ∧
    to_z3 (mkRegister "rax" none 0).1 = some (Z3V.var "rax" 64) := by
  refine ⟨rfl, rfl, rfl, rfl⟩

/-- Claim C2 (code behavior at the failing inputs).  For two
register-plus-constant addresses, `is_same_memory` compares only the register
names: the scan loops assign the constants to the variables `con1`/`con2`
while the comparisons read `const1`/`const2`, which keep their initial value
`None`.  Hence `[rbx+0]` versus `[rbx+8]` compares true although the constant
displacements differ, and a side with a constant compares true against a side
without one — the claim requires false in both cases. -/
theorem c2_constant_displacements_ignored :
    is_same_memory (Op.memory (Op.add (Op.register "rbx" 0) (Op.const 0)) 8)
        (Op.memory (Op.add (Op.register "rbx" 1) (Op.const 8)) 8) = some true ∧
    is_same_memory (Op.memory (Op.add (Op.register "rbx" 0) (Op.const 8)) 8)
        (Op.memory (Op.add (Op.register "rbx" 1) (Op.memory (Op.const 0) 8)) 8) = some true := by
  exact ⟨by decide, by decide⟩

/-- Claim C3 (code behavior at the failing input).  For two sums of two
registers — a shape outside the restricted "one register, at most one
constant" form, which the claim says must compare false — `is_same_memory`
returns true whenever the last register operand of each side has the same
name: `[rbx+rcx]` and `[rdx+rcx]` compare true although the addresses are not
provably equal. -/
theorem c3_two_register_sums_compare_true :
    is_same_memory (Op.memory (Op.add (Op.register "rbx" 0) (Op.register "rcx" 1)) 8)
        (Op.memory (Op.add (Op.register "rdx" 2) (Op.register "rcx" 3)) 8) = some true := by
  decide

/-- Claim C4 (counterexample).  A `Store` node does not translate:
`Store` defines no `operand` lambda, so `BinaryOperand.to_z3` raises
`AttributeError` on it — translation is not total on trees containing
`Store`. -/
theorem c4_store_does_not_translate :
    to_z3 (Op.store (Op.const 1) (Op.const 2)) = none := rfl

/-- Claim C4 (amended).  Translation is total on the trees the source
actually builds for the solver: every tree over the six value operations
and the three operand types, optionally topped by one `Equal` constraint,
translates successfully. -/
theorem c4_to_z3_total_on_supported_trees (t : Op) (h : topTree t = true) :
    (to_z3 t).isSome = true := by
  cases t with
  | const v => exact isSome_of_valueTree _ h
  | register n hd => exact isSome_of_valueTree _ h
  | memory a sz => exact isSome_of_valueTree _ h
  | add l r => exact isSome_of_valueTree _ h
  | sub l r => exact isSome_of_valueTree _ h
  | mult l r => exact isSome_of_valueTree _ h
  | bitwiseAnd l r => exact isSome_of_valueTree _ h
  | bitwiseOr l r => exact isSome_of_valueTree _ h
  | bitwiseXor l r => exact isSome_of_valueTree _ h
  | equal l r =>
    rw [topTree, Bool.and_eq_true] at h
    obtain ⟨zl, hl, gl⟩ := valueTree_to_z3 l h.1
    obtain ⟨zr, hr, gr⟩ := valueTree_to_z3 r h.2
    obtain ⟨z, hz⟩ := applyEq_total zl zr gl gr
    simp [to_z3, hl, hr, hz]
  | store l r => exact isSome_of_valueTree _ h

/-- Claim C4 (witness): the amended totality theorem applied to the
equation tree `rbx + 8 == 10` that the source file itself feeds to the
solver. -/
theorem c4_to_z3_total_witness :
    topTree (Op.equal (Op.add (Op.register "rbx" 0) (Op.const 8)) (Op.const 10)) = true ∧
    (to_z3 (Op.equal (Op.add (Op.register "rbx" 0) (Op.const 8)) (Op.const 10))).isSome = true :=
  ⟨by decide,
    c4_to_z3_total_on_supported_trees
      (Op.equal (Op.add (Op.register "rbx" 0) (Op.const 8)) (Op.const 10)) (by decide)⟩

/-- Claim C5.  `is_same_memory` is reflexive on memory operands whose
address is a `Const` or a `Register`, symmetric on every pair of memory
operands, and incomplete: `[rbx+0]` versus bare `[rbx]` compares false
although the addresses are semantically identical. -/
theorem c5_reflexive_symmetric_not_complete :
    (∀ (v : Int) (sz : Nat),
      is_same_memory (Op.memory (Op.const v) sz) (Op.memory (Op.const v) sz) = some true) ∧
    (∀ (n : String) (h sz : Nat),
      is_same_memory (Op.memory (Op.register n h) sz) (Op.memory (Op.register n h) sz)
        = some true) ∧
    (∀ (a1 : Op) (s1 : Nat) (a2 : Op) (s2 : Nat),
      is_same_memory (Op.memory a1 s1) (Op.memory a2 s2)
        = is_same_memory (Op.memory a2 s2) (Op.memory a1 s1)) ∧
    is_same_memory (Op.memory (Op.add (Op.register "rbx" 0) (Op.const 0)) 8)
        (Op.memory (Op.register "rbx" 1) 8) = some false := by
  refine ⟨?_, ?_, ?_, by decide⟩
  · intro v sz
    simp [is_same_memory, sameAddress, sameConstOrReg]
  · intro n h sz
    simp [is_same_memory, sameAddress, sameConstOrReg]
  · intro a1 s1 a2 s2
    exact congrArg some (sameAddress_comm a1 a2)

/-- Claim C6.  `Register.compute` is exactly the lookup of the register's
name in the supplied register map — it fails (Python `KeyError`) precisely
when the name is absent and returns the mapped value otherwise; in
particular `Register("rax").compute({}, {})` fails and a supplied value is
returned unchanged. -/
theorem c6_register_compute_error_contract :
    (∀ (n : String) (h : Nat) (regs : String → Option Int) (mem : Int → Option Int),
      compute (Op.register n h) regs mem = (regs n).map PyNum.int) ∧
    compute (Op.register "rax" 0) emptyRegs emptyMem = none ∧
    compute (Op.register "rax" 0) (singleReg "rax" 7) emptyMem = some (PyNum.int 7) := by
  refine ⟨fun n h regs mem => rfl, rfl, by decide⟩

/-- Claim C7.  `Memory.compute` first evaluates the address operand against
the supplied maps, then looks the resulting concrete address up in the
memory map — returning the stored value when present and failing (Python
`KeyError`) when absent; in particular
`Memory(Const(0x1234)).compute({}, {0x1234: 99}) == 99`. -/
theorem c7_memory_compute_error_contract :
    (∀ (addr : Op) (sz : Nat) (regs : String → Option Int) (mem : Int → Option Int),
      compute (Op.memory addr sz) regs mem
        = (compute addr regs mem).bind fun a => (mem a.toInt).map PyNum.int) ∧
    compute (Op.memory (Op.const 0x1234) 8) emptyRegs (singleMem 0x1234 99)
      = some (PyNum.int 99) ∧
    compute (Op.memory (Op.const 0) 8) emptyRegs emptyMem = none := by
  refine ⟨fun addr sz regs mem => rfl, by decide, rfl⟩

/-- Claim C8.  For every register name with value `v` and constant `c`, the
six binary value operations evaluate concretely to the Python integer
results `v + c`, `v - c`, `v * c`, `v & c`, `v | c`, `v ^ c` (the bitwise
operations being arbitrary-precision two's complement, with no modular
wraparound); in particular `(rbx + 8)` evaluates to 17 when `rbx = 9`. -/
theorem c8_binary_operation_laws :
    (∀ (name : String) (v c : Int) (h : Nat),
      compute (Op.add (Op.register name h) (Op.const c)) (singleReg name v) emptyMem
        = some (PyNum.int (v + c))) ∧
    (∀ (name : String) (v c : Int) (h : Nat),
      compute (Op.sub (Op.register name h) (Op.const c)) (singleReg name v) emptyMem
        = some (PyNum.int (v - c))) ∧
    (∀ (name : String) (v c : Int) (h : Nat),
      compute (Op.mult (Op.register name h) (Op.const c)) (singleReg name v) emptyMem
        = some (PyNum.int (v * c))) ∧
    (∀ (name : String) (v c : Int) (h : Nat),
      compute (Op.bitwiseAnd (Op.register name h) (Op.const c)) (singleReg name v) emptyMem
        = some (PyNum.int (pyAnd v c))) ∧
    (∀ (name : String) (v c : Int) (h : Nat),
      compute (Op.bitwiseOr (Op.register name h) (Op.const c)) (singleReg name v) emptyMem
        = some (PyNum.int (pyOr v c))) ∧
    (∀ (name : String) (v c : Int) (h : Nat),
      compute (Op.bitwiseXor (Op.register name h) (Op.const c)) (singleReg name v) emptyMem
        = some (PyNum.int (pyXor v c))) ∧
    compute (Op.add (Op.register "rbx" 0) (Op.const 8)) (singleReg "rbx" 9) emptyMem
      = some (PyNum.int 17) := by
  refine ⟨?_, ?_, ?_, ?_, ?_, ?_, by decide⟩ <;>
    · intro name v c h
      simp [compute, singleReg, pyOp, intOp, PyNum.toInt]

/-- Claim C9 (counterexample).  `Const.to_z3` returns `self.value`, the
bare Python integer: `Const(5).to_z3()` is the plain int 5, not a
width-annotated bit-vector literal (`z3.BitVecVal`) of any width as the
claim requires. -/
theorem c9_const_formula_not_a_bitvector_literal :
    to_z3 (Op.const 5) = some (Z3V.pyInt 5) ∧
    (to_z3 (Op.const 5)).map isBitVecLiteral = some false := by
  exact ⟨rfl, rfl⟩

/-- Claim C9 (amended).  `Const.compute` returns the held value
unconditionally for every supplied register and memory map, and
`Const.to_z3` returns the bare integer value itself (a width-less Python
int, which z3 coerces to a bit-vector literal only when it meets a
bit-vector operand). -/
theorem c9_const_semantics :
    (∀ (v : Int) (regs : String → Option Int) (mem : Int → Option Int),
      compute (Op.const v) regs mem = some (PyNum.int v)) ∧
    (∀ v : Int, to_z3 (Op.const v) = some (Z3V.pyInt v)) :=
  ⟨fun _ _ _ => rfl, fun _ => rfl⟩

/-- Claim C10.  A `Register` constructed with `handle=None` receives the
current counter value and bumps the counter, so the fresh handles of any
construction sequence are strictly increasing (hence pairwise distinct); a
`Register` constructed with an explicit handle leaves the counter unchanged,
so an explicit handle may coincide with a later fresh handle — in the
sequence `Register("reg", 1); Register("reg"); Register("reg")` starting at
counter 0, the explicit handle 1 collides with the second fresh handle. -/
theorem c10_handle_allocation_invariant :
    (∀ (name : String) (m : Nat), mkRegister name none m = (Op.register name m, m + 1)) ∧
    (∀ (name : String) (h m : Nat), mkRegister name (some h) m = (Op.register name h, m)) ∧
    (∀ (m : Nat) (reqs : List (Option Nat)),
      (freshOf m reqs).Pairwise (fun a b => a < b)) ∧
    runConstructions 0 [some 1, none, none] = ([(some 1, 1), (none, 0), (none, 1)], 2) := by
  exact ⟨fun name m => rfl, fun name h m => rfl, fun m reqs => freshOf_pairwise reqs m, rfl⟩

end RopAst
